import Mathlib

/-!
Verification development for the icode repository core.

The definitions below are shallow embeddings of the JavaScript sources:
  - npm-lite/semver.js        (namespace Semver)
  - npm-lite/registry.js tar  (namespace Tar)
  - npm-lite resolver         (namespace Resolver)
  - dev-server.js             (namespace DevServer)
  - script-runner runFile     (namespace Runner)
  - main.js message loop      (namespace MsgLoop)

Strings are modelled as Lean Strings; character-level scanning is done on
List Char.  JavaScript numbers that can be NaN are modelled as Option Nat
(none = NaN); version components are natural numbers (the sources never
produce negative components on reachable inputs).
-/

namespace ICode

/-- JS whitespace characters (the subset produced by the sources). -/
def isWs (c : Char) : Bool :=
  c = ' ' || c = '\t' || c = '\n' || c = '\r' || c = (Char.ofNat 11) || c = (Char.ofNat 12)

/-- Trim JS-style: drop whitespace from both ends of a char list. -/
def trimChars (cs : List Char) : List Char :=
  ((cs.dropWhile isWs).reverse.dropWhile isWs).reverse

/-- Lexicographic comparison of char lists, mirroring JS string `<`. -/
def charsLt : List Char → List Char → Bool
  | _, [] => false
  | [], _ :: _ => true
  | a :: as, b :: bs => a < b || (a = b && charsLt as bs)

/-- Does `sep` occur as a prefix of `cs`? -/
def isPrefixOfChars : List Char → List Char → Bool
  | [], _ => true
  | _ :: _, [] => false
  | a :: as, b :: bs => a = b && isPrefixOfChars as bs

/-- Split a char list on every (non-overlapping) occurrence of the
non-empty separator `sep`, mirroring JS String.prototype.split. -/
def splitOnChars (sep : List Char) (cs : List Char) : List (List Char) :=
  go cs.length cs []
where
  /-- Structural recursion on a fuel that starts at the input length;
  every step consumes at least one character, so the fuel-exhaustion
  case is unreachable. -/
  go : Nat → List Char → List Char → List (List Char)
    | _, [], acc => [acc.reverse]
    | 0, cs, acc => [acc.reverse ++ cs]
    | fuel + 1, c :: rest, acc =>
      if isPrefixOfChars sep (c :: rest) then
        acc.reverse :: go fuel (List.drop (sep.length - 1) rest) []
      else
        go fuel rest (c :: acc)

/-- Split on runs of whitespace and drop empty tokens
(JS `part.split(/\s+/).filter(Boolean)`). -/
def splitWsChars (cs : List Char) : List (List Char) :=
  (splitOnCharsPred cs).filter (fun t => !t.isEmpty)
where
  splitOnCharsPred (cs : List Char) : List (List Char) :=
    go cs []
  go : List Char → List Char → List (List Char)
    | [], acc => [acc.reverse]
    | c :: rest, acc =>
      if isWs c then acc.reverse :: go rest [] else go rest (c :: acc)

/-- Value of a digit character. -/
def digitVal (c : Char) : Nat := c.toNat - '0'.toNat

/-- Natural number denoted by a list of decimal digit characters. -/
def natOfDigits (cs : List Char) : Nat :=
  cs.foldl (fun acc c => acc * 10 + digitVal c) 0

/-- Non-empty all-digits test (JS `/^\d+$/`). -/
def isDigits (cs : List Char) : Bool :=
  !cs.isEmpty && cs.all Char.isDigit

/-- JS number that may be NaN: `none` is NaN. -/
abbrev JSNum := Option Nat

/-- JS `!==` on numbers (NaN !== anything, including NaN). -/
def jsNeq : JSNum → JSNum → Bool
  | some a, some b => a ≠ b
  | _, _ => true

/-- JS `>` on numbers (false whenever either side is NaN). -/
def jsGt : JSNum → JSNum → Bool
  | some a, some b => a > b
  | _, _ => false

/-- JS `=== 0` on numbers. -/
def jsEq0 : JSNum → Bool
  | some a => a = 0
  | none => false

/-- JS `+ 1` on numbers (NaN + 1 = NaN). -/
def jsAdd1 : JSNum → JSNum
  | some a => some (a + 1)
  | none => none

/-- JS `parseInt(str, 10)` restricted to the unsigned case: leading
whitespace skipped, then a run of decimal digits; NaN (`none`) when there
is no digit.  (Signs never reach this code path on version strings.) -/
def jsParseNat (cs : List Char) : JSNum :=
  let rest := cs.dropWhile isWs
  let digits := rest.takeWhile Char.isDigit
  if digits.isEmpty then none else some (natOfDigits digits)

/-- `parseInt(x, 10) || 0`: NaN collapses to 0. -/
def jsParseNatOr0 (cs : List Char) : Nat :=
  (jsParseNat cs).getD 0

namespace Semver

/-- Parsed semantic version (semver.js `parse` result).  `raw` is the
cleaned input string as a char list. -/
structure Version where
  major : JSNum
  minor : JSNum
  patch : JSNum
  prerelease : List String
  raw : List Char
deriving Repr, DecidableEq

/-- Characters allowed in prerelease/build identifiers
(`[a-zA-Z0-9._-]`). -/
def isIdentChar (c : Char) : Bool :=
  c.isAlpha || c.isDigit || c = '.' || c = '_' || c = '-'

/-- Core of semver.js `parse`: match
`^(\d+)\.(\d+)\.(\d+)(?:-([a-zA-Z0-9._-]+))?(?:\+([a-zA-Z0-9._-]+))?$`
against an already-cleaned char list. -/
def parseCore (cs : List Char) : Option (Nat × Nat × Nat × List String) :=
  let d1 := cs.takeWhile Char.isDigit
  if d1.isEmpty then none else
  match cs.drop d1.length with
  | '.' :: rest2 =>
    let d2 := rest2.takeWhile Char.isDigit
    if d2.isEmpty then none else
    (match rest2.drop d2.length with
    | '.' :: rest3 =>
      let d3 := rest3.takeWhile Char.isDigit
      if d3.isEmpty then none else
      (match parseTail (rest3.drop d3.length) with
      | some pre => some (natOfDigits d1, natOfDigits d2, natOfDigits d3, pre)
      | none => none)
    | _ => none)
  | _ => none
where
  /-- Parse the optional `-prerelease` and `+build` suffix; returns the
  prerelease identifier list (split on '.'), or none on a regex mismatch. -/
  parseTail : List Char → Option (List String)
    | [] => some []
    | '-' :: rest =>
      let pre := rest.takeWhile isIdentChar
      if pre.isEmpty then none else
      match rest.drop pre.length with
      | [] => some ((splitOnChars ['.'] pre).map (fun l => String.mk l))
      | '+' :: rest2 =>
        let bld := rest2.takeWhile isIdentChar
        if bld.isEmpty then none else
        if (rest2.drop bld.length).isEmpty then
          some ((splitOnChars ['.'] pre).map (fun l => String.mk l))
        else none
      | _ => none
    | '+' :: rest =>
      let bld := rest.takeWhile isIdentChar
      if bld.isEmpty then none else
      if (rest.drop bld.length).isEmpty then some [] else none
    | _ => none

/-- semver.js `parse(version)`: trim, strip one leading `v` or `=`,
then match the version regex. -/
def cleanedOf (cs : List Char) : List Char :=
  match trimChars cs with
  | 'v' :: rest => rest
  | '=' :: rest => rest
  | other => other

def parseChars (cs : List Char) : Option Version :=
  match parseCore (cleanedOf cs) with
  | some (ma, mi, pa, pre) =>
    some { major := some ma, minor := some mi, patch := some pa,
           prerelease := pre, raw := cleanedOf cs }
  | none => none

def parse (s : String) : Option Version := parseChars s.data

/-- Compare two prerelease identifiers as semver.js does inside its loop:
numeric identifiers compare numerically, numeric < alphanumeric,
alphanumeric compare as JS strings. -/
def compareIdent (ai bi : String) : Int :=
  let aNum : JSNum := if isDigits ai.data then some (natOfDigits ai.data) else none
  let bNum : JSNum := if isDigits bi.data then some (natOfDigits bi.data) else none
  match aNum, bNum with
  | some a, some b => if a ≠ b then (if a > b then 1 else -1) else 0
  | some _, none => -1
  | none, some _ => 1
  | none, none =>
    if charsLt ai.data bi.data then -1
    else if charsLt bi.data ai.data then 1
    else 0

/-- The prerelease-list loop of semver.js `compare` (runs only when both
lists are non-empty at the top level, but is total anyway). -/
def comparePre : List String → List String → Int
  | [], [] => 0
  | [], _ :: _ => -1
  | _ :: _, [] => 1
  | a :: as, b :: bs =>
    let c := compareIdent a b
    if c = 0 then comparePre as bs else c

/-- semver.js `compare(a, b)`. -/
def compare (a b : Version) : Int :=
  if jsNeq a.major b.major then (if jsGt a.major b.major then 1 else -1)
  else if jsNeq a.minor b.minor then (if jsGt a.minor b.minor then 1 else -1)
  else if jsNeq a.patch b.patch then (if jsGt a.patch b.patch then 1 else -1)
  else if a.prerelease.isEmpty && !b.prerelease.isEmpty then 1
  else if !a.prerelease.isEmpty && b.prerelease.isEmpty then -1
  else if a.prerelease.isEmpty && b.prerelease.isEmpty then 0
  else comparePre a.prerelease b.prerelease

/-- semver.js `parsePartial(str)` (the extra `partial` flag is returned
alongside the version). -/
def parsePart (cs : List Char) : Version × Bool :=
  match parseChars cs with
  | some v => (v, false)
  | none =>
    let parts := splitOnChars ['.'] cs
    ({ major := some (jsParseNatOr0 (parts.getD 0 []))
       minor := some (jsParseNatOr0 (parts.getD 1 []))
       patch := some (jsParseNatOr0 (parts.getD 2 []))
       prerelease := []
       raw := cs }, parts.length < 3)

/-- Comparator operators appearing in semver.js ranges. -/
inductive Op where
  | ge | le | gt | lt | eq
deriving Repr, DecidableEq

structure Comp where
  op : Op
  version : Version
deriving Repr, DecidableEq

/-- The all-accepting comparator `>= 0.0.0` used for `*`-like ranges. -/
def zeroComp : Comp :=
  { op := .ge,
    version := { major := some 0, minor := some 0, patch := some 0,
                 prerelease := [], raw := [] } }

def mkVer (ma mi pa : JSNum) : Version :=
  { major := ma, minor := mi, patch := pa, prerelease := [], raw := [] }

/-- semver.js `bump(v)` (used for the upper end of a partial hyphen
range). -/
def bump (v : Version) : Version :=
  if jsEq0 v.minor && jsEq0 v.patch then mkVer (jsAdd1 v.major) (some 0) (some 0)
  else mkVer v.major (jsAdd1 v.minor) (some 0)

/-- Is the token exactly `*`, `x` or `X`? -/
def isXToken (cs : List Char) : Bool :=
  cs = ['*'] || cs = ['x'] || cs = ['X']

/-- Comparators contributed by one whitespace-separated token of a range
part (the body of the token loop in semver.js `parseRange`). -/
def tokenComps (token : List Char) : List Comp :=
  match token with
  | '^' :: rest =>
    if rest.isEmpty then [] else
    let v := (parsePart rest).1
    { op := .ge, version := v } ::
    (if jsNeq v.major (some 0) then
      [{ op := .lt, version := mkVer (jsAdd1 v.major) (some 0) (some 0) }]
    else if jsNeq v.minor (some 0) then
      [{ op := .lt, version := mkVer (some 0) (jsAdd1 v.minor) (some 0) }]
    else
      [{ op := .lt, version := mkVer (some 0) (some 0) (jsAdd1 v.patch) }])
  | '~' :: rest =>
    if rest.isEmpty then [] else
    let v := (parsePart rest).1
    [{ op := .ge, version := v },
     { op := .lt, version := mkVer v.major (jsAdd1 v.minor) (some 0) }]
  | '>' :: '=' :: rest =>
    if rest.isEmpty then [] else [{ op := .ge, version := (parsePart rest).1 }]
  | '<' :: '=' :: rest =>
    if rest.isEmpty then [] else [{ op := .le, version := (parsePart rest).1 }]
  | '>' :: rest =>
    if rest.isEmpty then [] else [{ op := .gt, version := (parsePart rest).1 }]
  | '<' :: rest =>
    if rest.isEmpty then [] else [{ op := .lt, version := (parsePart rest).1 }]
  | '=' :: rest =>
    if rest.isEmpty then [] else [{ op := .eq, version := (parsePart rest).1 }]
  | _ =>
    if token.any (fun c => c = 'x' || c = 'X' || c = '*') then
      -- X-range branch
      let parts := splitOnChars ['.'] token
      let p0 := parts.getD 0 []
      let p1 := parts.getD 1 []
      if isXToken p0 then [zeroComp]
      else
        let maj := jsParseNat p0
        if p1.isEmpty || isXToken p1 then
          [{ op := .ge, version := mkVer maj (some 0) (some 0) },
           { op := .lt, version := mkVer (jsAdd1 maj) (some 0) (some 0) }]
        else
          let mi := jsParseNat p1
          [{ op := .ge, version := mkVer maj mi (some 0) },
           { op := .lt, version := mkVer maj (jsAdd1 mi) (some 0) }]
    else match parseChars token with
    | some v => [{ op := .eq, version := v }]
    | none =>
      -- Partial: `1` or `1.2` (regex `^(\d+)(?:\.(\d+))?$`)
      match splitOnChars ['.'] token with
      | [p0] =>
        if isDigits p0 then
          let maj := natOfDigits p0
          [{ op := .ge, version := mkVer (some maj) (some 0) (some 0) },
           { op := .lt, version := mkVer (some (maj + 1)) (some 0) (some 0) }]
        else []
      | [p0, p1] =>
        if isDigits p0 && isDigits p1 then
          let maj := natOfDigits p0
          let mi := natOfDigits p1
          [{ op := .ge, version := mkVer (some maj) (some mi) (some 0) },
           { op := .lt, version := mkVer (some maj) (some (mi + 1)) (some 0) }]
        else []
      | _ => []

/-- Comparator set contributed by one `||`-part of a range. -/
def partComps (part : List Char) : List Comp :=
  let tokens := splitWsChars part
  match tokens with
  | [t1, ['-'], t2] =>
    -- Hyphen range `A - B`
    let lo := (parsePart t1).1
    let (hi, isPart) := parsePart t2
    [{ op := .ge, version := lo },
     { op := if isPart then .lt else .le, version := if isPart then bump hi else hi }]
  | _ => tokens.foldr (fun t acc => tokenComps t ++ acc) []

/-- semver.js `parseRange(rangeStr)`: a disjunction of comparator
conjunctions. -/
def parseRangeChars (cs : List Char) : List (List Comp) :=
  if cs = [] || cs = ['*'] || cs = 'l' :: 'a' :: 't' :: 'e' :: 's' :: 't' :: [] ||
     cs = ['x'] || cs = ['X'] then
    [[zeroComp]]
  else
    let orParts := (splitOnChars ['|', '|'] cs).map trimChars
    let sets := (orParts.map partComps).filter (fun c => !c.isEmpty)
    if sets.isEmpty then [[zeroComp]] else sets

def parseRange (s : String) : List (List Comp) := parseRangeChars s.data

/-- semver.js `testComp(version, comp)`. -/
def testComp (version : Version) (comp : Comp) : Bool :=
  let c := compare version comp.version
  match comp.op with
  | .ge => c ≥ 0
  | .le => c ≤ 0
  | .gt => c > 0
  | .lt => c < 0
  | .eq => c = 0

/-- semver.js `satisfies(versionStr, rangeStr)`. -/
def satisfies (versionStr rangeStr : String) : Bool :=
  match parse versionStr with
  | none => false
  | some version =>
    (parseRange rangeStr).any (fun set => set.all (testComp version))

/-- Stable insertion into a list sorted by comparator `cmp`
(ascending; `cmp x y ≤ 0` places `x` before `y`). -/
def insertCmp {α : Type} (cmp : α → α → Int) (x : α) : List α → List α
  | [] => [x]
  | y :: ys => if cmp x y ≤ 0 then x :: y :: ys else y :: insertCmp cmp x ys

/-- Stable insertion sort, the model of `Array.prototype.sort` with a
consistent comparator. -/
def sortCmp {α : Type} (cmp : α → α → Int) : List α → List α
  | [] => []
  | x :: xs => insertCmp cmp x (sortCmp cmp xs)

/-- The `matching` list of semver.js `maxSatisfying`: pair each raw
string with its parse, drop unparseable entries (`filterMap` is the
`filter(v => v.parsed !== null)` step fused with the extraction), then
drop prereleases, then keep range matches. -/
def matchingPairs (versions : List String) (rangeStr : String) :
    List (String × Version) :=
  (((versions.map (fun v => (v, parse v))).filterMap
      (fun p => match p.2 with
        | some parsed => some (p.1, parsed)
        | none => none)).filter
      (fun p => p.2.prerelease.isEmpty)).filter
      (fun p => satisfies p.1 rangeStr)

/-- semver.js `maxSatisfying(versions, rangeStr)`: parse, drop
unparseable entries, drop prereleases, keep range matches, sort
descending by `compare`, return the first raw string. -/
def maxSatisfying (versions : List String) (rangeStr : String) : Option String :=
  match sortCmp (fun a b => compare b.2 a.2) (matchingPairs versions rangeStr) with
  | [] => none
  | m :: _ => some m.1

end Semver

namespace Tar

/-!
Model of the tar extractor in npm-lite/registry.js (`extract` and its
helpers).  The gunzipped tar buffer is a list of bytes (`List Nat`); the
model records the destination-relative path of every filesystem write
(directory creation, symlink attempt, or file write) that `extract`
performs.  Bytes are turned into characters directly (the names involved
are ASCII).
-/

/-- registry.js `readString(buf, offset, length)`: take the window, stop
at the first NUL. -/
def readString (buf : List Nat) (off len : Nat) : List Char :=
  (((buf.drop off).take len).takeWhile (fun b => b ≠ 0)).map Char.ofNat

/-- Octal digit test for JS `parseInt(str, 8)`. -/
def isOctalDigit (c : Char) : Bool := '0' ≤ c && c ≤ '7'

/-- Value of a list of octal digit characters. -/
def octalValue (cs : List Char) : Nat :=
  cs.foldl (fun acc c => acc * 8 + digitVal c) 0

/-- registry.js `readSize(buf, offset, length)`: base-256 when the high
bit of the first byte is set, else `parseInt(trimmed, 8) || 0`. -/
def readSize (buf : List Nat) (off len : Nat) : Nat :=
  if buf.getD off 0 ≥ 128 then
    (((buf.drop (off + 1)).take (len - 1))).foldl (fun acc b => acc * 256 + b) 0
  else
    let str := trimChars (readString buf off len)
    if str.isEmpty then 0
    else
      let digits := str.takeWhile isOctalDigit
      if digits.isEmpty then 0 else octalValue digits

/-- registry.js `isZeroBlock(buf)`. -/
def isZeroBlock (buf : List Nat) : Bool := buf.all (fun b => b = 0)

/-- registry.js `padTo512(size)`. -/
def padTo512 (size : Nat) : Nat :=
  if size > 0 then ((size + 511) / 512) * 512 else 0

/-- `name.indexOf('/')`-then-slice: drop everything up to and including
the first slash; the whole name when there is no slash. -/
def stripFirstAux : List Char → List Char → List Char
  | [], orig => orig
  | c :: rest, orig => if c = '/' then rest else stripFirstAux rest orig

def stripFirst (name : List Char) : List Char := stripFirstAux name name

/-- Substring test for `".."` (JS `relativePath.includes('..')`). -/
def hasDotDot : List Char → Bool
  | '.' :: '.' :: _ => true
  | _ :: rest => hasDotDot rest
  | [] => false

/-- The per-entry path handling of `extract`: strip the leading
component, skip empty/`.`/`./` results, refuse paths containing `..`.
Returns the destination-relative path, or none when the entry is
skipped. -/
def processName (name : List Char) : Option (List Char) :=
  let relativePath := stripFirst name
  if relativePath = [] || relativePath = ['.'] || relativePath = ['.', '/'] then none
  else if hasDotDot relativePath then none
  else some relativePath

/-- Does this entry perform a filesystem write?  Directories (`'5'` or a
trailing slash), symlinks (`'2'`), and regular files (`'0'` or NUL)
write; other type flags are ignored by `extract`. -/
def writesEntry (typeFlag : Nat) (name : List Char) : Bool :=
  (typeFlag = '5'.toNat || (name.getLast? = some '/')) ||
  typeFlag = '2'.toNat ||
  (typeFlag = '0'.toNat || typeFlag = 0)

/-- The PAX `path=` override: leftmost match of `/\d+ path=(.+)\n/`. -/
def findPaxPath : List Char → Option (List Char)
  | [] => none
  | c :: rest =>
    match tryHere (c :: rest) with
    | some cap => some cap
    | none => findPaxPath rest
where
  tryHere (cs : List Char) : Option (List Char) :=
    let ds := cs.takeWhile Char.isDigit
    if ds.isEmpty then none
    else
      match cs.drop ds.length with
      | ' ' :: 'p' :: 'a' :: 't' :: 'h' :: '=' :: after =>
        let cap := after.takeWhile (fun ch => ch ≠ '\n')
        if cap.isEmpty then none
        else if (after.drop cap.length).head? = some '\n' then some cap
        else none
      | _ => none

/-- Strip a trailing run of NUL characters (JS `replace(/\0+$/, '')`). -/
def stripTrailingNul (cs : List Char) : List Char :=
  (cs.reverse.dropWhile (fun ch => ch = Char.ofNat 0)).reverse

/-- One step state of the extraction loop: the PAX path override and the
GNU long-name override pending for the next real entry. -/
structure LoopState where
  paxPath : Option (List Char)
  gnuLongName : Option (List Char)
deriving Repr

/-- "Apply extended name if present": consume the PAX path, else the GNU
long name, else prepend the ustar `prefix` field. -/
def chooseName (st : LoopState) (pfx name0 : List Char) : List Char × LoopState :=
  match st.paxPath with
  | some p => (p, { st with paxPath := none })
  | none =>
    match st.gnuLongName with
    | some g => (g, { st with gnuLongName := none })
    | none =>
      if pfx ≠ [] then (pfx ++ '/' :: name0, st) else (name0, st)

/-- Record the entry's write (when its type flag writes and its path
passes the guards) in front of the writes of the rest of the archive. -/
def entryStep (typeFlag : Nat) (name : List Char) (rest : List (List Char)) :
    List (List Char) :=
  match processName name with
  | some rel => if writesEntry typeFlag name then rel :: rest else rest
  | none => rest

/-- The header-block loop of `extract`, returning the relative paths of
all filesystem writes.  `fuel` bounds the number of iterations; each
iteration advances `offset` by at least 512, so `buf.length / 512 + 1`
iterations always suffice. -/
def extractLoop (buf : List Nat) : Nat → Nat → LoopState → List (List Char)
  | 0, _, _ => []
  | fuel + 1, offset, st =>
    if offset + 512 ≤ buf.length then
      let header := (buf.drop offset).take 512
      if isZeroBlock header then []
      else
        let name0 := readString header 0 100
        let size := readSize header 124 12
        let typeFlag := header.getD 156 0
        let pfx := readString header 345 155
        let offset2 := offset + 512
        if typeFlag = 'x'.toNat || typeFlag = 'X'.toNat then
          let paxData := ((buf.drop offset2).take size).map Char.ofNat
          let st2 : LoopState :=
            { st with paxPath := match findPaxPath paxData with
                | some p => some p
                | none => st.paxPath }
          extractLoop buf fuel (offset2 + padTo512 size) st2
        else if typeFlag = 'g'.toNat then
          extractLoop buf fuel (offset2 + padTo512 size) st
        else if typeFlag = 'L'.toNat then
          let long := stripTrailingNul (((buf.drop offset2).take size).map Char.ofNat)
          extractLoop buf fuel (offset2 + padTo512 size)
            { st with gnuLongName := some long }
        else
          let nameSt := chooseName st pfx name0
          entryStep typeFlag nameSt.1
            (extractLoop buf fuel (offset2 + padTo512 size) nameSt.2)
    else []

/-- registry.js `extract` restricted to its observable filesystem writes:
the list of destination-relative paths written, in order. -/
def extractEntries (buf : List Nat) : List (List Char) :=
  extractLoop buf (buf.length / 512 + 1) 0 { paxPath := none, gnuLongName := none }

end Tar

namespace Resolver

/-!
Model of the resolver in npm-lite (resolver module, required as
`./resolver` from npm-lite/index.js).  The registry is an oracle from
package name to packument (`none` models a failed fetch, which the
source catches and turns into a warning).  The module-level
`packumentCache` is threaded explicitly through `ResolveState`; the
source also exports `clearCache`, but no call site of `clearCache`
exists anywhere in the repository, so the cache handed to each `resolve`
call is whatever the previous call left behind.  `fetchLog` records the
names for which the resolver actually hit the registry (cache misses),
which is the observable the cache claims are about.
-/

/-- `dist.tarball` / `dist.integrity || dist.shasum || ''` collapsed to
two strings; `bin` is kept opaque. -/
structure VersionMeta where
  dependencies : List (String × String)
  tarball : String
  integrity : String
  bin : Option String
deriving Repr, DecidableEq

structure Packument where
  versions : List (String × VersionMeta)
  distTags : List (String × String)
deriving Repr, DecidableEq

structure ResolvedPkg where
  name : String
  version : String
  tarball : String
  integrity : String
  dependencies : List (String × String)
  bin : Option String
deriving Repr, DecidableEq

abbrev Registry := String → Option Packument

structure ResolveState where
  resolved : List (String × ResolvedPkg)
  resolving : List String
  cache : List (String × Packument)
  fetchLog : List String
deriving Repr, DecidableEq

/-- The packument-cache consultation of `resolveDep`: a cache hit
returns the cached packument; a miss asks the registry and (on success)
stores the packument; either registry attempt is recorded in
`fetchLog`; a failed fetch (`none`) is the caught-and-warned path. -/
def fetchPackument (reg : Registry) (name : String) (st : ResolveState) :
    Option Packument × ResolveState :=
  match st.cache.lookup name with
  | some packument => (some packument, st)
  | none =>
    match reg name with
    | some packument =>
      (some packument,
       { st with cache := (name, packument) :: st.cache,
                 fetchLog := st.fetchLog ++ [name] })
    | none =>
      (none, { st with fetchLog := st.fetchLog ++ [name] })

/-- resolver `resolveDep(name, range, resolved, resolving, emit, depth)`.
The depth guard `if (depth > 50) return` is modelled by `fuel`
(`fuel = 51 - depth`); warnings are not part of the state.  After the
cache/registry lookup the body selects a version, inserts into
`resolved`, folds over the sub-dependencies (the `for ... of
Object.entries(vData.dependencies)` loop), and (`finally`) removes the
resolving key. -/
def resolveDep (reg : Registry) : Nat → String → String → ResolveState → ResolveState
  | 0, _, _, st => st
  | fuel + 1, name, range, st =>
    match st.resolved.lookup name with
    | some existing =>
      -- Already resolved: satisfying or not, the state is unchanged
      -- (a conflict only emits a warning).
      if Semver.satisfies existing.version range then st else st
    | none =>
      let key := name ++ "@" ++ range
      if key ∈ st.resolving then st
      else
        let st1 := { st with resolving := key :: st.resolving }
        match fetchPackument reg name st1 with
        | (none, st2) => { st2 with resolving := st2.resolving.erase key }
        | (some packument, st2) =>
          let versions := packument.versions.map (fun p => p.1)
          if versions.isEmpty then { st2 with resolving := st2.resolving.erase key }
          else
            let effectiveRange := match packument.distTags.lookup range with
              | some v => v
              | none => range
            match Semver.maxSatisfying versions effectiveRange with
            | none => { st2 with resolving := st2.resolving.erase key }
            | some bestVersion =>
              match packument.versions.lookup bestVersion with
              | none => { st2 with resolving := st2.resolving.erase key } -- unreachable
              | some vData =>
                let st3 := { st2 with resolved := st2.resolved ++
                  [(name, { name := name, version := bestVersion,
                            tarball := vData.tarball, integrity := vData.integrity,
                            dependencies := vData.dependencies, bin := vData.bin })] }
                let st4 := vData.dependencies.foldl
                  (fun acc d => resolveDep reg fuel d.1 d.2 acc) st3
                { st4 with resolving := st4.resolving.erase key }

/-- Sequential `resolveDep` over a dependency map (the `for ... of
Object.entries(deps)` loop of `resolve`). -/
def resolveList (reg : Registry) (fuel : Nat) (deps : List (String × String))
    (st : ResolveState) : ResolveState :=
  deps.foldl (fun acc d => resolveDep reg fuel d.1 d.2 acc) st

/-- resolver `resolve(packageJson, opts, emit)` restricted to its state
effects: fresh `resolved` and `resolving`, the module-level cache passed
in, one `resolveDep` per top-level dependency (depth 0, i.e. fuel 51). -/
def resolve (reg : Registry) (deps : List (String × String))
    (cache : List (String × Packument)) : ResolveState :=
  resolveList reg 51 deps
    { resolved := [], resolving := [], cache := cache, fetchLog := [] }

end Resolver

namespace DevServer

/-!
Model of dev-server.js: the module rewrite (`transformModules`), the JSX
rewrite (`transformJSXSyntax` and its helpers), and the entry-file
selection of `buildHTML`.  The regex replacements of `transformModules`
are implemented as hand-rolled matchers; on these patterns greedy
maximal-munch agrees with the JS engine because every repeated class is
disjoint from the token that follows it.
-/

/-- JS `\w`: `[A-Za-z0-9_]`. -/
def isWordChar (c : Char) : Bool := c.isAlpha || c.isDigit || c = '_'

/-- Substring test (JS `String.prototype.includes`); `pat` non-empty in
all uses. -/
def containsSub (pat : List Char) : List Char → Bool
  | [] => isPrefixOfChars pat []
  | c :: rest => isPrefixOfChars pat (c :: rest) || containsSub pat rest

def expectPrefix (pat cs : List Char) : Option (List Char) :=
  if isPrefixOfChars pat cs then some (cs.drop pat.length) else none

/-- `\s+`: at least one whitespace character. -/
def ws1 (cs : List Char) : Option (List Char) :=
  let w := cs.takeWhile isWs
  if w.isEmpty then none else some (cs.drop w.length)

/-- `\s*`. -/
def ws0 (cs : List Char) : List Char := cs.dropWhile isWs

/-- `(\w+)`. -/
def word1 (cs : List Char) : Option (List Char × List Char) :=
  let w := cs.takeWhile isWordChar
  if w.isEmpty then none else some (w, cs.drop w.length)

def isQuoteChar (c : Char) : Bool := c = '\'' || c = '"'

/-- `['"]`. -/
def expectQuote : List Char → Option (List Char)
  | c :: rest => if isQuoteChar c then some rest else none
  | [] => none

/-- `([^'"]+)`. -/
def moduleName (cs : List Char) : Option (List Char × List Char) :=
  let m := cs.takeWhile (fun c => !isQuoteChar c)
  if m.isEmpty then none else some (m, cs.drop m.length)

/-- `;?`. -/
def dropSemi : List Char → List Char
  | ';' :: rest => rest
  | cs => cs

/-- `import X from 'mod'` →
`const X = (function() { var _m = require('mod'); ... })();`. -/
def matchImportDefault (cs : List Char) : Option (List Char × List Char) := do
  let r0 ← expectPrefix ("import").data cs
  let r1 ← ws1 r0
  let (name, r2) ← word1 r1
  let r3 ← ws1 r2
  let r4 ← expectPrefix ("from").data r3
  let r5 ← ws1 r4
  let r6 ← expectQuote r5
  let (m, r7) ← moduleName r6
  let r8 ← expectQuote r7
  pure (("const ").data ++ name ++
    (" = (function() \x7b var _m = require('").data ++ m ++
    ("'); return _m && _m.__esModule ? _m.default : _m; \x7d)();").data,
    dropSemi (ws0 r8))

/-- `import { A, B } from 'mod'` → `const { A, B } = require('mod');`. -/
def matchImportNamed (cs : List Char) : Option (List Char × List Char) := do
  let r0 ← expectPrefix ("import").data cs
  let r1 := ws0 r0
  let r2 ← expectPrefix ['\x7b'] r1
  let names := r2.takeWhile (fun c => c ≠ '\x7d')
  if names.isEmpty then none else
  let r3 ← expectPrefix ['\x7d'] (r2.drop names.length)
  let r4 := ws0 r3
  let r5 ← expectPrefix ("from").data r4
  let r6 := ws0 r5
  let r7 ← expectQuote r6
  let (m, r8) ← moduleName r7
  let r9 ← expectQuote r8
  pure (("const \x7b ").data ++ trimChars names ++ (" \x7d = require('").data ++
    m ++ ("');").data, dropSemi (ws0 r9))

/-- `import * as X from 'mod'` → `const X = require('mod');`. -/
def matchImportStar (cs : List Char) : Option (List Char × List Char) := do
  let r0 ← expectPrefix ("import").data cs
  let r1 := ws0 r0
  let r2 ← expectPrefix ['*'] r1
  let r3 := ws0 r2
  let r4 ← expectPrefix ("as").data r3
  let r5 ← ws1 r4
  let (name, r6) ← word1 r5
  let r7 ← ws1 r6
  let r8 ← expectPrefix ("from").data r7
  let r9 ← ws1 r8
  let r10 ← expectQuote r9
  let (m, r11) ← moduleName r10
  let r12 ← expectQuote r11
  pure (("const ").data ++ name ++ (" = require('").data ++ m ++ ("');").data,
    dropSemi (ws0 r12))

/-- `import 'mod'` → `require('mod');`. -/
def matchImportBare (cs : List Char) : Option (List Char × List Char) := do
  let r0 ← expectPrefix ("import").data cs
  let r1 ← ws1 r0
  let r2 ← expectQuote r1
  let (m, r3) ← moduleName r2
  let r4 ← expectQuote r3
  pure (("require('").data ++ m ++ ("');").data, dropSemi (ws0 r4))

/-- `export default function F` → `function F`. -/
def matchExportDefaultFn (cs : List Char) : Option (List Char × List Char) := do
  let r0 ← expectPrefix ("export").data cs
  let r1 ← ws1 r0
  let r2 ← expectPrefix ("default").data r1
  let r3 ← ws1 r2
  let r4 ← expectPrefix ("function").data r3
  let r5 ← ws1 r4
  let (name, r6) ← word1 r5
  pure (("function ").data ++ name, r6)

/-- `export default ` → `module.exports = `. -/
def matchExportDefault (cs : List Char) : Option (List Char × List Char) := do
  let r0 ← expectPrefix ("export").data cs
  let r1 ← ws1 r0
  let r2 ← expectPrefix ("default").data r1
  let r3 ← ws1 r2
  pure (("module.exports = ").data, r3)

/-- `export function F` → `function F` (note: no export-table write is
emitted, despite the comment in the source). -/
def matchExportFn (cs : List Char) : Option (List Char × List Char) := do
  let r0 ← expectPrefix ("export").data cs
  let r1 ← ws1 r0
  let r2 ← expectPrefix ("function").data r1
  let r3 ← ws1 r2
  let (name, r4) ← word1 r3
  pure (("function ").data ++ name, r4)

/-- `export const|let|var X` → `const|let|var X` (again with no
export-table write). -/
def matchExportDecl (cs : List Char) : Option (List Char × List Char) := do
  let r0 ← expectPrefix ("export").data cs
  let r1 ← ws1 r0
  let (decl, r2) ←
    match expectPrefix ("const").data r1 with
    | some r => some (("const").data, r)
    | none =>
      match expectPrefix ("let").data r1 with
      | some r => some (("let").data, r)
      | none =>
        match expectPrefix ("var").data r1 with
        | some r => some (("var").data, r)
        | none => none
  let r3 ← ws1 r2
  let (name, r4) ← word1 r3
  pure (decl ++ ' ' :: name, r4)

/-- Global regex replacement: leftmost scan, replace and continue after
the match.  Every matcher consumes at least one character, so a fuel of
the input length suffices. -/
def replaceAllF (matcher : List Char → Option (List Char × List Char)) :
    Nat → List Char → List Char
  | 0, cs => cs
  | _ + 1, [] => []
  | fuel + 1, c :: rest =>
    match matcher (c :: rest) with
    | some (repl, remaining) => repl ++ replaceAllF matcher fuel remaining
    | none => c :: replaceAllF matcher fuel rest

def replaceAll (matcher : List Char → Option (List Char × List Char))
    (cs : List Char) : List Char :=
  replaceAllF matcher cs.length cs

/-- `^function\s+(\w+)` with the `m` flag: the name of the first
line-initial function declaration.  `atStart` tracks whether the current
position begins a line. -/
def findFnDecl : List Char → Bool → Option (List Char)
  | cs, true =>
    match matchHere cs with
    | some name => some name
    | none =>
      match cs with
      | [] => none
      | c :: rest => findFnDecl rest (c = '\n')
  | [], false => none
  | c :: rest, false => findFnDecl rest (c = '\n')
where
  matchHere (cs : List Char) : Option (List Char) := do
    let r0 ← expectPrefix ("function").data cs
    let r1 ← ws1 r0
    let (name, _) ← word1 r1
    pure name

/-- dev-server.js `transformModules(code)`: the sequential regex
replacements, including the append of a trailing `module.exports`
assignment for a line-initial function declaration when the code does
not yet mention `module.exports`. -/
def transformModules (code : List Char) : List Char :=
  let c1 := replaceAll matchImportDefault code
  let c2 := replaceAll matchImportNamed c1
  let c3 := replaceAll matchImportStar c2
  let c4 := replaceAll matchImportBare c3
  let c5 := replaceAll matchExportDefaultFn c4
  let c6 := replaceAll matchExportDefault c5
  let c7 :=
    match findFnDecl c6 true with
    | some name =>
      if containsSub ("module.exports").data c6 then c6
      else c6 ++ '\n' :: ("module.exports = ").data ++ name ++ [';']
    | none => c6
  let c8 := replaceAll matchExportFn c7
  replaceAll matchExportDecl c8

/-! The JSX rewrite (`transformJSXSyntax` and its helper parsers).  The
mutually recursive parsers carry a fuel argument that strictly decreases
on every call; the JS originals terminate on all inputs they are run on
(they can in fact loop forever on malformed input such as a mismatched
closing tag — fuel exhaustion models that divergence as a failed
parse). -/

/-- Tag-name characters: `[a-zA-Z0-9_.$]`. -/
def isTagChar (c : Char) : Bool :=
  c.isAlpha || c.isDigit || c = '_' || c = '.' || c = '$'

/-- Prop-name characters: `[a-zA-Z0-9_-]`. -/
def isPropChar (c : Char) : Bool :=
  c.isAlpha || c.isDigit || c = '_' || c = '-'

/-- The string-skipping loop shared by the top-level scanner and
`parseExpression`: copy until the closing quote, copying the character
after a backslash unconditionally. -/
def skipStr (quote : Char) : List Char → (List Char × List Char)
  | [] => ([], [])
  | c :: rest =>
    if c = quote then ([c], rest)
    else if c = '\\' then
      match rest with
      | [] => ([c], [])
      | d :: rest2 =>
        let (cp, rem) := skipStr quote rest2
        (c :: d :: cp, rem)
    else
      let (cp, rem) := skipStr quote rest
      (c :: cp, rem)

/-- The `/* ... */` skipping loop: stops one character early at the end
of input, exactly like the `i < code.length - 1` condition. -/
def skipBlockComment : List Char → (List Char × List Char)
  | [] => ([], [])
  | [c] => ([], [c])
  | '*' :: '/' :: rest => (['*', '/'], rest)
  | c :: rest => let (cp, rem) := skipBlockComment rest; (c :: cp, rem)

/-- `JSON.stringify` escaping for one character. -/
def jsonEscapeChar (c : Char) : List Char :=
  if c = '"' then ['\\', '"']
  else if c = '\\' then ['\\', '\\']
  else if c = '\n' then ['\\', 'n']
  else if c = '\r' then ['\\', 'r']
  else if c = '\t' then ['\\', 't']
  else if c = Char.ofNat 8 then ['\\', 'b']
  else if c = Char.ofNat 12 then ['\\', 'f']
  else if c.toNat < 32 then
    ['\\', 'u', '0', '0', hexDigit (c.toNat / 16), hexDigit (c.toNat % 16)]
  else [c]
where
  hexDigit (n : Nat) : Char :=
    if n < 10 then Char.ofNat ('0'.toNat + n) else Char.ofNat ('a'.toNat + n - 10)

/-- `JSON.stringify` of a text child. -/
def jsonQuote (cs : List Char) : List Char :=
  '"' :: (cs.map jsonEscapeChar).flatten ++ ['"']

def joinSep (sep : List Char) : List (List Char) → List Char
  | [] => []
  | [x] => x
  | x :: rest => x ++ sep ++ joinSep sep rest

/-- dev-server.js `normProp`. -/
def normProp (name : List Char) : List Char :=
  if name.contains '-' then '"' :: name ++ ['"'] else name

/-- dev-server.js `buildPropsStr(props, spreads)`. -/
def buildPropsStr (props spreads : List (List Char)) : List Char :=
  if props.isEmpty && spreads.isEmpty then ("null").data
  else if !spreads.isEmpty then
    ("Object.assign(\x7b\x7d, ").data ++ joinSep (", ").data spreads ++
      (", \x7b ").data ++ joinSep (", ").data props ++ (" \x7d)").data
  else ("\x7b ").data ++ joinSep (", ").data props ++ (" \x7d").data

/-- `${children.length > 0 ? ', ' + children.join(', ') : ''}`. -/
def childStr (children : List (List Char)) : List Char :=
  if children.isEmpty then [] else (", ").data ++ joinSep (", ").data children

def elemOut (tagStr propsStr : List Char) (children : List (List Char)) : List Char :=
  ("React.createElement(").data ++ tagStr ++ (", ").data ++ propsStr ++
    childStr children ++ [')']

/-- The keyword substring test of the `isComparison` heuristic
(`/return|case|in|of|typeof|instanceof|void|delete|throw|new|yield|await/`). -/
def kwTest (w : List Char) : Bool :=
  containsSub ("return").data w || containsSub ("case").data w ||
  containsSub ("in").data w || containsSub ("of").data w ||
  containsSub ("typeof").data w || containsSub ("instanceof").data w ||
  containsSub ("void").data w || containsSub ("delete").data w ||
  containsSub ("throw").data w || containsSub ("new").data w ||
  containsSub ("yield").data w || containsSub ("await").data w

/-- Characters that make a preceding `<` look like a comparison:
`[a-zA-Z0-9_$)\]]`. -/
def isCompLastChar (c : Char) : Bool :=
  c.isAlpha || c.isDigit || c = '_' || c = '$' || c = ')' || c = ']'

/-- The `isComparison` test of the scanner, computed on the reversed
output accumulated so far (`result.trimEnd()` and `getLastWord`). -/
def isComparison (revAcc : List Char) : Bool :=
  let beforeRev := revAcc.dropWhile isWs
  match beforeRev.head? with
  | none => false
  | some lc =>
    isCompLastChar lc && !kwTest (beforeRev.takeWhile isWordChar).reverse

/-- The text-child case of `parseJSXChild`. -/
def textChild (cs1 : List Char) : Option (List Char × List Char) :=
  let text := cs1.takeWhile (fun c => c ≠ '<' && c ≠ '\x7b')
  if (trimChars text).isEmpty then some ([], cs1.drop text.length)
  else some (jsonQuote (trimChars text), cs1.drop text.length)

mutual

/-- The main scan loop of `transformJSXSyntax`, with the output built in
reverse in `revAcc`. -/
def scanJSX : Nat → List Char → List Char → List Char
  | 0, revAcc, cs => revAcc.reverse ++ cs
  | _ + 1, revAcc, [] => revAcc.reverse
  | fuel + 1, revAcc, c :: rest =>
    if isQuoteChar c || c = '`' then
      let (cp, rem) := skipStr c rest
      scanJSX fuel (cp.reverse ++ c :: revAcc) rem
    else if c = '/' && rest.head? = some '/' then
      let cm := (c :: rest).takeWhile (fun ch => ch ≠ '\n')
      scanJSX fuel (cm.reverse ++ revAcc) ((c :: rest).drop cm.length)
    else if c = '/' && rest.head? = some '*' then
      let (cp, rem) := skipBlockComment (rest.drop 1)
      scanJSX fuel (cp.reverse ++ '*' :: '/' :: revAcc) rem
    else if c = '<' && rest.head? = some '>' then
      match parseFrag fuel (c :: rest) with
      | some (out, rem) => scanJSX fuel (out.reverse ++ revAcc) rem
      | none => scanJSX fuel (c :: revAcc) rest
    else if c = '<' &&
        (match rest.head? with
         | some n => n.isAlpha || n = '_'
         | none => false) then
      if isComparison revAcc then scanJSX fuel (c :: revAcc) rest
      else
        match parseElem fuel (c :: rest) with
        | some (out, rem) => scanJSX fuel (out.reverse ++ revAcc) rem
        | none => scanJSX fuel (c :: revAcc) rest
    else
      scanJSX fuel (c :: revAcc) rest

/-- dev-server.js `parseJSXElement(code, start)`; `cs` begins at the
`<`.  Returns the emitted call and the input after the element. -/
def parseElem : Nat → List Char → Option (List Char × List Char)
  | 0, _ => none
  | fuel + 1, cs =>
    match cs with
    | '<' :: rest =>
      let tagName := rest.takeWhile isTagChar
      if tagName.isEmpty then none
      else
        let isComponent := match tagName.head? with
          | some c => c.isUpper
          | none => false
        let tagStr := if isComponent then tagName else '"' :: tagName ++ ['"']
        propsLoop fuel tagStr tagName [] [] (rest.drop tagName.length)
    | _ => none

/-- The prop-parsing loop of `parseJSXElement`. -/
def propsLoop (fuel : Nat) (tagStr tagName : List Char)
    (props spreads : List (List Char)) (cs : List Char) :
    Option (List Char × List Char) :=
  match fuel with
  | 0 => none
  | fuel + 1 =>
    let cs1 := ws0 cs
    match cs1 with
    | '/' :: '>' :: rest =>
      some (elemOut tagStr (buildPropsStr props spreads) [], rest)
    | '>' :: rest =>
      childrenLoop fuel tagStr tagName props spreads [] rest
    | '\x7b' :: '.' :: '.' :: '.' :: rest =>
      let (v, after) := parseExpr fuel '\x7d' 0 [] rest
      propsLoop fuel tagStr tagName props (spreads ++ [v]) (after.drop 1)
    | _ =>
      let propName := cs1.takeWhile isPropChar
      if propName.isEmpty then
        -- `break`: fall through to child parsing without a `>`
        childrenLoop fuel tagStr tagName props spreads [] cs1
      else
        match cs1.drop propName.length with
        | '=' :: after1 =>
          match after1 with
          | q :: after2 =>
            if isQuoteChar q then
              let val := after2.takeWhile (fun ch => ch ≠ q)
              propsLoop fuel tagStr tagName
                (props ++ [normProp propName ++ (": \"").data ++ val ++ ['"']])
                spreads ((after2.drop val.length).drop 1)
            else if q = '\x7b' then
              let (v, after3) := parseExpr fuel '\x7d' 0 [] after2
              propsLoop fuel tagStr tagName
                (props ++ [normProp propName ++ (": ").data ++ v])
                spreads (after3.drop 1)
            else propsLoop fuel tagStr tagName props spreads after1
          | [] => propsLoop fuel tagStr tagName props spreads after1
        | rest2 =>
          propsLoop fuel tagStr tagName
            (props ++ [normProp propName ++ (": true").data]) spreads rest2

/-- The child-collection loop of `parseJSXElement`. -/
def childrenLoop (fuel : Nat) (tagStr tagName : List Char)
    (props spreads children : List (List Char)) (cs : List Char) :
    Option (List Char × List Char) :=
  match fuel with
  | 0 => none
  | fuel + 1 =>
    match cs with
    | [] => none
    | _ =>
      let closeTag := '<' :: '/' :: tagName ++ ['>']
      if isPrefixOfChars closeTag cs then
        some (elemOut tagStr (buildPropsStr props spreads) children,
          cs.drop closeTag.length)
      else
        match parseChild fuel cs with
        | some (out, rest) =>
          let children2 :=
            if (trimChars out).isEmpty then children else children ++ [out]
          childrenLoop fuel tagStr tagName props spreads children2 rest
        | none => none

/-- dev-server.js `parseJSXFragment(code, start)`; `cs` begins at
`<>`. -/
def parseFrag : Nat → List Char → Option (List Char × List Char)
  | 0, _ => none
  | fuel + 1, cs =>
    match cs with
    | '<' :: '>' :: rest => fragLoop fuel [] rest
    | _ => none

/-- The child loop of `parseJSXFragment`. -/
def fragLoop (fuel : Nat) (children : List (List Char)) (cs : List Char) :
    Option (List Char × List Char) :=
  match fuel with
  | 0 => none
  | fuel + 1 =>
    if isPrefixOfChars ['<', '/', '>'] cs then
      some (("React.createElement(React.Fragment, null").data ++
        childStr children ++ [')'], cs.drop 3)
    else
      match cs with
      | [] => none
      | _ =>
        match parseChild fuel cs with
        | some (out, rest) =>
          let children2 :=
            if (trimChars out).isEmpty then children else children ++ [out]
          fragLoop fuel children2 rest
        | none => none

/-- dev-server.js `parseJSXChild(code, i)`. -/
def parseChild : Nat → List Char → Option (List Char × List Char)
  | 0, _ => none
  | fuel + 1, cs =>
    let cs1 := cs.dropWhile (fun c => isWs c && c ≠ '\n')
    match cs1 with
    | '<' :: '/' :: _ => some ([], cs1)
    | '<' :: '>' :: _ => parseFrag fuel cs1
    | '<' :: n :: _ =>
      if n.isAlpha || n = '_' then parseElem fuel cs1
      else textChild cs1
    | '\x7b' :: rest =>
      let (v, after) := parseExpr fuel '\x7d' 0 [] rest
      some (v, after.drop 1)
    | _ => textChild cs1

/-- dev-server.js `parseExpression(code, start, endChar)`: returns the
collected value and the input beginning at the terminating `endChar`
(or the empty input when it ran off the end). -/
def parseExpr : Nat → Char → Int → List Char → List Char → (List Char × List Char)
  | 0, _, _, acc, cs => (acc, cs)
  | _ + 1, _, _, acc, [] => (acc, [])
  | fuel + 1, endChar, depth, acc, c :: rest =>
    if (c = '\x7d' || c = ')' || c = ']') && depth = 0 && c = endChar then
      (acc, c :: rest)
    else
      let depth2 :=
        if c = '\x7b' || c = '(' || c = '[' then depth + 1
        else if c = '\x7d' || c = ')' || c = ']' then depth - 1
        else depth
      if isQuoteChar c || c = '`' then
        let (cp, rem) := skipStr c rest
        parseExpr fuel endChar depth2 (acc ++ c :: cp) rem
      else if c = '<' &&
          (match rest.head? with
           | some n => n.isAlpha || n = '_' || n = '>'
           | none => false) then
        if rest.head? = some '>' then
          match parseFrag fuel (c :: rest) with
          | some (out, rem) => parseExpr fuel endChar depth2 (acc ++ out) rem
          | none => parseExpr fuel endChar depth2 (acc ++ [c]) rest
        else
          match parseElem fuel (c :: rest) with
          | some (out, rem) => parseExpr fuel endChar depth2 (acc ++ out) rem
          | none => parseExpr fuel endChar depth2 (acc ++ [c]) rest
      else
        parseExpr fuel endChar depth2 (acc ++ [c]) rest

end

/-- dev-server.js `transformJSXSyntax(code)`. -/
def transformJSXSyntax (code : List Char) : List Char :=
  scanJSX (code.length * 8 + 64) [] code

/-- dev-server.js `transformJSX(code)`: module rewrite, then JSX
rewrite. -/
def transformJSX (code : List Char) : List Char :=
  transformJSXSyntax (transformModules code)

/-- String-level wrapper for `transformJSX`. -/
def transformJSXStr (s : String) : String := String.mk (transformJSX s.data)

/-- The entry choice of `buildHTML` (dev-server.js lines 447-471),
as a function of the bundle's `fileList`. -/
inductive EntryScript where
  | direct (path : String)
  | appRender (path : String)
  | noEntry
deriving Repr, DecidableEq

def chooseEntry (fileList : List String) : EntryScript :=
  let entryFile : Option String :=
    if fileList.contains "/index.js" then some "/index.js"
    else if fileList.contains "/index.jsx" then some "/index.jsx"
    else if fileList.contains "/index.tsx" then some "/index.tsx"
    else none
  let appFile : Option String :=
    if fileList.contains "/App.js" then some "/App.js"
    else if fileList.contains "/App.jsx" then some "/App.jsx"
    else if fileList.contains "/App.tsx" then some "/App.tsx"
    else fileList.head?
  match entryFile with
  | some e => .direct e
  | none =>
    match appFile with
    | some a => .appRender a
    | none => .noEntry

end DevServer

namespace Runner

/-!
Model of `runFile` from the script runner (control flow of the file
path; `-e`/`-p` are separate helpers).  After the module body runs, the
source awaits a promise that is resolved either by a `setImmediate`
timer or by the abort listener — in both cases `runFile` then executes
`return 0`.  The only nonzero exits come from the missing-file check,
an `ExitSignal` thrown by `process.exit(code)`, or any other thrown
error (`return 1`).
-/

/-- Outcome of evaluating the wrapped module body (`compiled.call`). -/
inductive BodyOutcome where
  | normal
  | exitSignal (code : Int)
  | errorThrown
deriving Repr, DecidableEq

/-- Exit code of `runFile([file, ...], cwd, emit, signal)` on the
file path.  `abortedDuringAwait` records whether the cancellation token
fired while the runner was awaiting after the body returned; the source
resolves the awaited promise and returns 0 in either case, which is why
the parameter does not influence the result. -/
def runFileResult (fileExists : Bool) (body : BodyOutcome)
    (hasSignal abortedDuringAwait : Bool) : Int :=
  if !fileExists then 1
  else
    match body with
    | .exitSignal c => c
    | .errorThrown => 1
    | .normal =>
      -- `await new Promise(...)` (resolved by setImmediate or abort),
      -- then `return 0`
      let _ := hasSignal
      let _ := abortedDuringAwait
      0

end Runner

namespace MsgLoop

/-!
Model of the inbound message dispatch of main.js
(`rn_bridge.channel.on('message', ...)`).  A raw payload goes through
two stages before the `switch`: `JSON.parse` inside the
`try { ... } catch { return; }` (a parse failure returns silently with
no reply), and then the destructuring `const { id, type } = msg` —
which throws an uncaught TypeError when the parsed value is `null`
(`"null"` is valid JSON), so that case also sends no frame, but by an
exception escaping the handler rather than a deliberate drop.  Every
payload that survives destructuring reaches the `switch` and produces
at least one reply frame (non-object primitives such as numbers or
booleans destructure via object coercion to `undefined` fields and fall
into the unrecognized-type default).  Effects of the handlers
(filesystem results, the outcome of `executeCommand`) are oracles
carried inside the message constructors.
-/

/-- How the async `executeCommand` of an `exec` task concludes. -/
inductive ExecOutcome where
  | exited (code : Int)
  | abortError
  | threw
deriving Repr, DecidableEq

/-- Success or failure of a synchronous filesystem handler. -/
inductive FsOutcome where
  | ok
  | err
deriving Repr, DecidableEq

/-- A successfully parsed inbound message, with its handler's outcome
embedded as an oracle.  `unknown` is any unrecognized `type`. -/
inductive InMsg where
  | ping
  | exec (outcome : ExecOutcome)
  | kill (found : Bool)
  | writeFile (r : FsOutcome)
  | readFile (r : FsOutcome)
  | mkdir (r : FsOutcome)
  | readDir (r : FsOutcome)
  | getInfo
  | unknown
deriving Repr, DecidableEq

/-- Reply frames (terminal frames only; streamed stdout/stderr frames
happen inside `executeCommand` and are not part of the dispatch). -/
inductive Frame where
  | pong
  | exitF (code : Int) (withSignal : Bool)
  | errorF
  | done
  | killed
  | result
  | info
deriving Repr, DecidableEq

/-- Reply frames of the dispatch for one parsed message. -/
def handleParsed : InMsg → List Frame
  | .ping => [.pong]
  | .exec o =>
    match o with
    | .exited c => [.exitF c false]
    | .abortError => [.exitF 130 true]
    | .threw => [.errorF]
  | .kill found => if found then [.killed] else [.errorF]
  | .writeFile r => match r with | .ok => [.done] | .err => [.errorF]
  | .readFile r => match r with | .ok => [.result] | .err => [.errorF]
  | .mkdir r => match r with | .ok => [.done] | .err => [.errorF]
  | .readDir r => match r with | .ok => [.result] | .err => [.errorF]
  | .getInfo => [.info]
  | .unknown => [.errorF]

/-- Outcome of the two stages in front of the `switch`: `JSON.parse`
can throw (caught, silent return), it can produce `null` (the
destructuring `const { id, type } = msg` then throws), or it yields a
destructurable value carrying a `type` field, modelled by `InMsg`. -/
inductive Parsed where
  | malformed
  | nullPayload
  | msg (m : InMsg)
deriving Repr, DecidableEq

/-- Observable behaviour of the message handler for one inbound frame:
the reply frames sent, and whether an exception escaped the handler. -/
structure Reply where
  frames : List Frame
  threw : Bool
deriving Repr, DecidableEq

/-- The whole message handler.  A `JSON.parse` failure hits
`catch { return; }` (no frames, no escaped exception); a parsed `null`
throws at the destructuring before any `send` (no frames, exception
escapes); anything else is dispatched by the `switch`. -/
def handleRaw : Parsed → Reply
  | .malformed => { frames := [], threw := false }
  | .nullPayload => { frames := [], threw := true }
  | .msg m => { frames := handleParsed m, threw := false }

end MsgLoop

/-! ### Concrete fixtures used by the theorems below -/

namespace Tar

/-- A single well-formed ustar header block: name `package/a.txt`, all
other fields zero (type flag NUL = regular file, size 0). -/
def sampleHeader : List Nat :=
  ("package/a.txt").data.map Char.toNat ++ List.replicate 499 0

end Tar

namespace Resolver

def demoMeta (deps : List (String × String)) : VersionMeta :=
  { dependencies := deps, tarball := "t", integrity := "i", bin := none }

/-- A two-package registry: `left-pad` at 0.0.1 / 1.0.0 / 1.3.0 (the
last depending on `right-pad ^1.0.0`) and `right-pad` at 1.0.0 /
1.0.5. -/
def demoRegistry : Registry := fun n =>
  if n = "left-pad" then
    some { versions := [("0.0.1", demoMeta []), ("1.0.0", demoMeta []),
                        ("1.3.0", demoMeta [("right-pad", "^1.0.0")])],
           distTags := [("latest", "1.3.0")] }
  else if n = "right-pad" then
    some { versions := [("1.0.0", demoMeta []), ("1.0.5", demoMeta [])],
           distTags := [("latest", "1.0.5")] }
  else none

def demoDeps : List (String × String) := [("left-pad", "^1.0.0")]

end Resolver

/-! ### Supporting lemmas -/

namespace Semver

/-! Lemmas about the sorting model and `compare` on prerelease-free
versions, used to settle the semver claims. -/

lemma mem_insertCmp {α : Type} (cmp : α → α → Int) (a x : α) (l : List α) :
    x ∈ insertCmp cmp a l ↔ x = a ∨ x ∈ l := by
  induction l with
  | nil => simp [insertCmp]
  | cons y ys ih =>
    simp only [insertCmp]
    split
    · simp [List.mem_cons]
    · simp only [List.mem_cons, ih]
      tauto

lemma mem_sortCmp {α : Type} (cmp : α → α → Int) (x : α) (l : List α) :
    x ∈ sortCmp cmp l ↔ x ∈ l := by
  induction l with
  | nil => simp [sortCmp]
  | cons y ys ih =>
    simp only [sortCmp, mem_insertCmp, List.mem_cons, ih]

lemma insertCmp_pairwise {α : Type} (cmp : α → α → Int) (Q : α → Prop)
    (htot : ∀ x y, Q x → Q y → cmp x y ≤ 0 ∨ cmp y x ≤ 0)
    (htrans : ∀ x y z, Q x → Q y → Q z →
      cmp x y ≤ 0 → cmp y z ≤ 0 → cmp x z ≤ 0)
    (a : α) (ha : Q a) (l : List α) (hl : ∀ x ∈ l, Q x)
    (hp : l.Pairwise (fun x y => cmp x y ≤ 0)) :
    (insertCmp cmp a l).Pairwise (fun x y => cmp x y ≤ 0) := by
  induction l with
  | nil => simp [insertCmp]
  | cons y ys ih =>
    rcases List.pairwise_cons.mp hp with ⟨hy, hys⟩
    simp only [insertCmp]
    split
    case isTrue h =>
      refine List.Pairwise.cons ?_ hp
      intro z hz
      rcases List.mem_cons.mp hz with rfl | hz2
      · exact h
      · exact htrans a y z ha (hl y (List.mem_cons_self y ys))
          (hl z (List.mem_cons_of_mem y hz2)) h (hy z hz2)
    case isFalse h =>
      refine List.Pairwise.cons ?_
        (ih (fun x hx => hl x (List.mem_cons_of_mem y hx)) hys)
      intro z hz
      rcases (mem_insertCmp cmp a z ys).mp hz with rfl | hz2
      · rcases htot z y ha (hl y (List.mem_cons_self y ys)) with hc | hc
        · exact absurd hc h
        · exact hc
      · exact hy z hz2

lemma sortCmp_pairwise {α : Type} (cmp : α → α → Int) (Q : α → Prop)
    (htot : ∀ x y, Q x → Q y → cmp x y ≤ 0 ∨ cmp y x ≤ 0)
    (htrans : ∀ x y z, Q x → Q y → Q z →
      cmp x y ≤ 0 → cmp y z ≤ 0 → cmp x z ≤ 0)
    (l : List α) (hl : ∀ x ∈ l, Q x) :
    (sortCmp cmp l).Pairwise (fun x y => cmp x y ≤ 0) := by
  induction l with
  | nil => simp [sortCmp]
  | cons y ys ih =>
    exact insertCmp_pairwise cmp Q htot htrans y (hl y (List.mem_cons_self y ys))
      (sortCmp cmp ys)
      (fun x hx => hl x (List.mem_cons_of_mem y ((mem_sortCmp cmp x ys).mp hx)))
      (ih (fun x hx => hl x (List.mem_cons_of_mem y hx)))

/-- The head of the sorted list is minimal for the comparator, over any
domain `Q` on which the comparator is reflexive, total and transitive. -/
lemma sortCmp_head_le {α : Type} (cmp : α → α → Int) (Q : α → Prop)
    (hrefl : ∀ x, Q x → cmp x x ≤ 0)
    (htot : ∀ x y, Q x → Q y → cmp x y ≤ 0 ∨ cmp y x ≤ 0)
    (htrans : ∀ x y z, Q x → Q y → Q z →
      cmp x y ≤ 0 → cmp y z ≤ 0 → cmp x z ≤ 0)
    (l : List α) (hl : ∀ x ∈ l, Q x) (h : α) (t : List α)
    (heq : sortCmp cmp l = h :: t) :
    ∀ x ∈ l, cmp h x ≤ 0 := by
  intro x hx
  have hx2 : x ∈ h :: t := heq ▸ (mem_sortCmp cmp x l).mpr hx
  have hh : h ∈ l := (mem_sortCmp cmp h l).mp (heq ▸ List.mem_cons_self h t)
  rcases List.mem_cons.mp hx2 with rfl | hx3
  · exact hrefl x (hl x hx)
  · have hp := sortCmp_pairwise cmp Q htot htrans l hl
    rw [heq] at hp
    exact (List.pairwise_cons.mp hp).1 x hx3

/-- On prerelease-free versions, `compare ≤ 0` is the lexicographic
order on the numeric triple. -/
lemma compare_le_iff (a b c d e f : Nat) (r1 r2 : List Char) :
    compare ⟨some a, some b, some c, [], r1⟩ ⟨some d, some e, some f, [], r2⟩ ≤ 0 ↔
      a < d ∨ (a = d ∧ (b < e ∨ (b = e ∧ c ≤ f))) := by
  simp only [compare, jsNeq, jsGt, decide_eq_true_eq]
  simp only [List.isEmpty_nil, Bool.not_true, Bool.and_false, Bool.and_self, if_false, if_true]
  split_ifs <;> first | omega | simp_all

/-- On prerelease-free versions, `compare ≥ 0` is the reverse
lexicographic order. -/
lemma compare_ge_iff (a b c d e f : Nat) (r1 r2 : List Char) :
    compare ⟨some a, some b, some c, [], r1⟩ ⟨some d, some e, some f, [], r2⟩ ≥ 0 ↔
      a > d ∨ (a = d ∧ (b > e ∨ (b = e ∧ c ≥ f))) := by
  simp only [compare, jsNeq, jsGt, decide_eq_true_eq]
  simp only [List.isEmpty_nil, Bool.not_true, Bool.and_false, Bool.and_self, if_false, if_true]
  split_ifs <;> first | omega | simp_all

/-- A successful `parse` always yields numeric components (never NaN). -/
lemma parse_shape (s : String) (p : Version) (h : parse s = some p) :
    ∃ a b c pre r, p = ⟨some a, some b, some c, pre, r⟩ := by
  unfold parse parseChars at h
  split at h
  · rename_i ma mi pa pre heq
    exact ⟨ma, mi, pa, pre, _, (Option.some_inj.mp h).symm⟩
  · exact absurd h (by simp)


/-- Membership in the `matching` list of `maxSatisfying`. -/
lemma mem_matchingPairs (versions : List String) (rangeStr : String)
    (w : String) (q : Version) :
    (w, q) ∈ matchingPairs versions rangeStr ↔
      w ∈ versions ∧ parse w = some q ∧ q.prerelease = [] ∧
        satisfies w rangeStr = true := by
  simp only [matchingPairs, List.mem_filter, List.mem_filterMap, List.mem_map]
  constructor
  · rintro ⟨⟨⟨p, ⟨⟨v, hv, rfl⟩, hf⟩⟩, hpre⟩, hsat⟩
    revert hf
    cases hpv : parse v with
    | none => simp
    | some parsed =>
      intro hf
      simp only [Option.some_inj, Prod.mk.injEq] at hf
      rcases hf with ⟨rfl, rfl⟩
      refine ⟨hv, hpv, ?_, hsat⟩
      simpa [List.isEmpty_iff] using hpre
  · rintro ⟨hw, hq, hpre, hsat⟩
    exact ⟨⟨⟨(w, parse w), ⟨⟨w, hw, rfl⟩, by simp [hq]⟩⟩, by simp [hpre]⟩, hsat⟩

/-- Full characterization of a successful `maxSatisfying`: the result is
an element of the input, parses without prerelease, satisfies the range,
and compares at least as high as every other prerelease-free satisfying
element. -/
lemma maxSatisfying_max (versions : List String) (rangeStr v : String)
    (hmax : maxSatisfying versions rangeStr = some v) :
    v ∈ versions ∧
      ∃ p, parse v = some p ∧ p.prerelease = [] ∧ satisfies v rangeStr = true ∧
        ∀ w q, w ∈ versions → parse w = some q → q.prerelease = [] →
          satisfies w rangeStr = true → compare p q ≥ 0 := by
  unfold maxSatisfying at hmax
  rcases hs : sortCmp (fun a b => compare b.2 a.2) (matchingPairs versions rangeStr)
    with _ | ⟨m, rest⟩
  · rw [hs] at hmax
    exact absurd hmax (by simp)
  · rw [hs] at hmax
    have hv : m.1 = v := by simpa using hmax
    have hm : m ∈ matchingPairs versions rangeStr := by
      have hmem : m ∈ sortCmp (fun a b => compare b.2 a.2)
          (matchingPairs versions rangeStr) := by
        rw [hs]
        exact List.mem_cons_self m rest
      exact (mem_sortCmp _ _ _).mp hmem
    obtain ⟨hv_mem, hparse, hpre, hsat⟩ :=
      (mem_matchingPairs versions rangeStr m.1 m.2).mp hm
    have hQ : ∀ x ∈ matchingPairs versions rangeStr, ∃ a b c r,
        x.2 = { major := some a, minor := some b, patch := some c,
                prerelease := [], raw := r } := by
      intro x hx
      obtain ⟨_, hpx, hprex, _⟩ :=
        (mem_matchingPairs versions rangeStr x.1 x.2).mp hx
      obtain ⟨a, b, c, pre, r, hshape⟩ := parse_shape _ _ hpx
      refine ⟨a, b, c, r, ?_⟩
      rw [hshape] at hprex ⊢
      simp only at hprex
      rw [hprex]
    have hrefl : ∀ x, (∃ a b c r, x.2 = Version.mk (some a) (some b) (some c) [] r) →
        (fun a b : String × Version => compare b.2 a.2) x x ≤ 0 := by
      rintro x ⟨a, b, c, r, hx⟩
      show compare x.2 x.2 ≤ 0
      rw [hx, compare_le_iff]
      omega
    have htot : ∀ x y, (∃ a b c r, x.2 = Version.mk (some a) (some b) (some c) [] r) →
        (∃ a b c r, y.2 = Version.mk (some a) (some b) (some c) [] r) →
        (fun a b : String × Version => compare b.2 a.2) x y ≤ 0 ∨
        (fun a b : String × Version => compare b.2 a.2) y x ≤ 0 := by
      rintro x y ⟨a, b, c, r1, hx⟩ ⟨d, e, f, r2, hy⟩
      show compare y.2 x.2 ≤ 0 ∨ compare x.2 y.2 ≤ 0
      rw [hx, hy, compare_le_iff, compare_le_iff]
      omega
    have htrans : ∀ x y z,
        (∃ a b c r, x.2 = Version.mk (some a) (some b) (some c) [] r) →
        (∃ a b c r, y.2 = Version.mk (some a) (some b) (some c) [] r) →
        (∃ a b c r, z.2 = Version.mk (some a) (some b) (some c) [] r) →
        (fun a b : String × Version => compare b.2 a.2) x y ≤ 0 →
        (fun a b : String × Version => compare b.2 a.2) y z ≤ 0 →
        (fun a b : String × Version => compare b.2 a.2) x z ≤ 0 := by
      rintro x y z ⟨a, b, c, r1, hx⟩ ⟨d, e, f, r2, hy⟩ ⟨g, h2, i, r3, hz⟩
      show compare y.2 x.2 ≤ 0 → compare z.2 y.2 ≤ 0 → compare z.2 x.2 ≤ 0
      rw [hx, hy, hz, compare_le_iff, compare_le_iff, compare_le_iff]
      omega
    have hhead : ∀ x ∈ matchingPairs versions rangeStr, compare x.2 m.2 ≤ 0 :=
      sortCmp_head_le _ _ hrefl htot htrans _ hQ m rest hs
    rw [hv] at hparse
    refine ⟨hv ▸ hv_mem, m.2, hparse, hpre, hv ▸ hsat, ?_⟩
    intro w q hw hpw hpq hsw
    have hwq : (w, q) ∈ matchingPairs versions rangeStr :=
      (mem_matchingPairs versions rangeStr w q).mpr ⟨hw, hpw, hpq, hsw⟩
    have h1 : compare q m.2 ≤ 0 := hhead (w, q) hwq
    obtain ⟨a, b, c, r1, hm2⟩ := hQ m hm
    obtain ⟨d, e, f, pre, r2, hq⟩ := parse_shape _ _ hpw
    have hpre2 : pre = [] := by
      rw [hq] at hpq
      simpa using hpq
    rw [hpre2] at hq
    rw [hm2, hq, compare_le_iff] at h1
    rw [hm2, hq, compare_ge_iff]
    omega

end Semver

namespace Tar

/-- A successful `processName` is the stripped name and is free of
`..`. -/
lemma processName_spec (name rel : List Char) (h : processName name = some rel) :
    rel = stripFirst name ∧ hasDotDot rel = false := by
  unfold processName at h
  dsimp only at h
  split_ifs at h with h1 h2
  have he : stripFirst name = rel := Option.some_inj.mp h
  refine ⟨he.symm, ?_⟩
  rw [← he]
  simpa using h2

/-- Every write recorded by one `entryStep` is a guarded entry path or a
write of the remaining archive. -/
lemma mem_entryStep (typeFlag : Nat) (name p : List Char)
    (rest : List (List Char)) (hp : p ∈ entryStep typeFlag name rest) :
    processName name = some p ∨ p ∈ rest := by
  unfold entryStep at hp
  rcases h : processName name with _ | rel
  · rw [h] at hp
    dsimp only at hp
    exact Or.inr hp
  · rw [h] at hp
    dsimp only at hp
    split at hp
    · rcases List.mem_cons.mp hp with rfl | hp2
      · exact Or.inl rfl
      · exact Or.inr hp2
    · exact Or.inr hp

/-- Every path written by the extraction loop passed `processName`. -/
lemma extractLoop_entries (buf : List Nat) :
    ∀ fuel offset st p, p ∈ extractLoop buf fuel offset st →
      ∃ name, processName name = some p := by
  intro fuel
  induction fuel with
  | zero => intro o st p hp; simp [extractLoop] at hp
  | succ fuel ih =>
    intro o st p hp
    rw [extractLoop] at hp
    split at hp
    · dsimp only at hp
      split at hp
      · simp at hp
      · split at hp
        · exact ih _ _ _ hp
        · split at hp
          · exact ih _ _ _ hp
          · split at hp
            · exact ih _ _ _ hp
            · rcases mem_entryStep _ _ _ _ hp with h | h
              · exact ⟨_, h⟩
              · exact ih _ _ _ h
    · simp at hp

/-- Every path written by `extract` is free of `..`. -/
lemma extractEntries_no_dotdot (buf : List Nat) (p : List Char)
    (hp : p ∈ extractEntries buf) : hasDotDot p = false := by
  rcases extractLoop_entries buf _ _ _ p hp with ⟨name, h⟩
  exact (processName_spec name p h).2

/-- The characters of the `package/` wrapper prefix. -/
lemma package_data :
    ("package/").data = ['p', 'a', 'c', 'k', 'a', 'g', 'e', '/'] := rfl

/-- Stripping the first component of a `package/`-wrapped name yields
exactly the wrapped remainder. -/
lemma stripFirst_package (tail : List Char) :
    stripFirst (("package/").data ++ tail) = tail := by
  rw [package_data]
  simp [stripFirst, stripFirstAux]

end Tar

namespace Resolver

/-- `fetchPackument` only ever prepends to the cache. -/
lemma fetchPackument_cache (reg : Registry) (name : String) (st : ResolveState) :
    ∃ pre, (fetchPackument reg name st).2.cache = pre ++ st.cache := by
  unfold fetchPackument
  split
  · exact ⟨[], rfl⟩
  · split
    · exact ⟨[(name, _)], rfl⟩
    · exact ⟨[], rfl⟩

/-- Folding `resolveDep` over a dependency list preserves any cache
suffix. -/
lemma foldl_cache (reg : Registry) (fuel : Nat)
    (hDep : ∀ n r st, ∃ pre, (resolveDep reg fuel n r st).cache = pre ++ st.cache) :
    ∀ (deps : List (String × String)) (st : ResolveState)
      (c0 : List (String × Packument)),
      (∃ p, st.cache = p ++ c0) →
      ∃ p, (deps.foldl (fun acc d => resolveDep reg fuel d.1 d.2 acc) st).cache =
        p ++ c0 := by
  intro deps
  induction deps with
  | nil => intro st c0 h; simpa using h
  | cons d rest ih =>
    intro st c0 h
    rw [List.foldl_cons]
    obtain ⟨p0, h0⟩ := h
    obtain ⟨p1, h1⟩ := hDep d.1 d.2 st
    refine ih _ c0 ⟨p1 ++ p0, ?_⟩
    rw [h1, h0, List.append_assoc]

/-- `resolveDep` never removes a cache entry: the resulting cache is
the incoming cache with new packuments prepended.  This is the
persistence half of the packument-cache behaviour. -/
lemma resolveDep_cache (reg : Registry) :
    ∀ fuel name range st, ∃ pre,
      (resolveDep reg fuel name range st).cache = pre ++ st.cache := by
  intro fuel
  induction fuel with
  | zero =>
    intro n r st
    exact ⟨[], by rw [resolveDep]; exact (List.nil_append _).symm⟩
  | succ fuel ih =>
    intro name range st
    rw [resolveDep]
    split
    · split <;> exact ⟨[], rfl⟩
    · dsimp only
      split
      · exact ⟨[], rfl⟩
      · split
        all_goals rename_i st2 heq
        · -- fetch failed
          obtain ⟨pre2, hpre2⟩ := fetchPackument_cache reg name
            { st with resolving := (name ++ "@" ++ range) :: st.resolving }
          rw [heq] at hpre2
          exact ⟨pre2, hpre2⟩
        · -- fetch succeeded
          obtain ⟨pre2, hpre2⟩ := fetchPackument_cache reg name
            { st with resolving := (name ++ "@" ++ range) :: st.resolving }
          rw [heq] at hpre2
          dsimp only at hpre2
          split
          · exact ⟨pre2, hpre2⟩
          · split
            · exact ⟨pre2, hpre2⟩
            · split
              · exact ⟨pre2, hpre2⟩
              · exact foldl_cache reg fuel ih _ _ _ ⟨pre2, hpre2⟩

/-- `resolveList` (and hence `resolve`) only prepends to the cache. -/
lemma resolveList_cache (reg : Registry) (fuel : Nat)
    (deps : List (String × String)) (st : ResolveState) :
    ∃ pre, (resolveList reg fuel deps st).cache = pre ++ st.cache := by
  unfold resolveList
  exact foldl_cache reg fuel (resolveDep_cache reg fuel) deps st st.cache
    ⟨[], (List.nil_append _).symm⟩

end Resolver

/-- `isPrefixOfChars` is exactly list-prefix decomposition. -/
lemma isPrefixOfChars_iff (pre cs : List Char) :
    isPrefixOfChars pre cs = true ↔ ∃ t, cs = pre ++ t := by
  induction pre generalizing cs with
  | nil => simp [isPrefixOfChars]
  | cons a as ih =>
    cases cs with
    | nil => simp [isPrefixOfChars]
    | cons b bs =>
      simp only [isPrefixOfChars, Bool.and_eq_true, decide_eq_true_eq, ih,
        List.cons_append, List.cons.injEq]
      constructor
      · rintro ⟨rfl, t, rfl⟩
        exact ⟨t, rfl, rfl⟩
      · rintro ⟨t, rfl, rfl⟩
        exact ⟨rfl, t, rfl⟩

/-! ### Claim theorems -/

/-- C1, counterexample: when the cancellation token fires while the
runner awaits after a normally returning script body, `runFile` returns
exit code 0, not 130 as claimed. -/
theorem C1_runFile_abort_counterexample :
    Runner.runFileResult true .normal true true = 0 ∧ (0 : Int) ≠ 130 :=
  ⟨rfl, by decide⟩

/-- C1, amended: aborting the token while `runFile` awaits on it yields
exit code 0 (the abort merely resolves the awaited promise); `runFile`
returns 130 only when the script body itself threw `ExitSignal(130)`
(i.e. called `process.exit(130)`). -/
theorem C1_runFile_abort_exit_code :
    (∀ aborted : Bool, Runner.runFileResult true .normal true aborted = 0) ∧
    (∀ (fileExists : Bool) (body : Runner.BodyOutcome) (hasSignal aborted : Bool),
      Runner.runFileResult fileExists body hasSignal aborted = 130 →
      body = .exitSignal 130) := by
  constructor
  · intro aborted
    rfl
  · intro fe b hs ab h
    cases fe with
    | false => simp [Runner.runFileResult] at h
    | true =>
      cases b with
      | normal => simp [Runner.runFileResult] at h
      | errorThrown => simp [Runner.runFileResult] at h
      | exitSignal c =>
        have hc : c = 130 := by simpa [Runner.runFileResult] using h
        rw [hc]

/-- C1 witness: the amended theorem applied at concrete inputs. -/
theorem C1_runFile_abort_exit_code_witness :
    Runner.runFileResult true .normal true true = 0 ∧
    Runner.BodyOutcome.exitSignal 130 = Runner.BodyOutcome.exitSignal 130 :=
  ⟨C1_runFile_abort_exit_code.1 true,
   C1_runFile_abort_exit_code.2 true (.exitSignal 130) true false (by decide)⟩

/-- C2: every path the tar extractor writes is free of `..`, and a
`package/`-wrapped entry name that passes the guards is written exactly
at the wrapper-stripped remainder. -/
theorem C2_tar_extraction_safety :
    (∀ (buf : List Nat) (p : List Char),
      p ∈ Tar.extractEntries buf → Tar.hasDotDot p = false) ∧
    (∀ (name rel : List Char),
      isPrefixOfChars ("package/").data name = true →
      Tar.processName name = some rel →
      name = ("package/").data ++ rel ∧ Tar.hasDotDot rel = false) := by
  constructor
  · exact fun buf p hp => Tar.extractEntries_no_dotdot buf p hp
  · intro name rel hpre hproc
    obtain ⟨t, rfl⟩ := (isPrefixOfChars_iff _ _).mp hpre
    obtain ⟨hrel, hdd⟩ := Tar.processName_spec _ _ hproc
    rw [Tar.stripFirst_package] at hrel
    subst hrel
    exact ⟨rfl, hdd⟩

set_option maxRecDepth 100000 in
/-- C2 witness: the theorem applied to the sample archive and the sample
entry name. -/
theorem C2_tar_extraction_safety_witness :
    Tar.hasDotDot ("a.txt").data = false ∧
    ("package/a.txt").data = ("package/").data ++ ("a.txt").data :=
  ⟨C2_tar_extraction_safety.1 Tar.sampleHeader ("a.txt").data (by decide),
   (C2_tar_extraction_safety.2 ("package/a.txt").data ("a.txt").data
      (by decide) (by decide)).1⟩

/-- C3, counterexample: `satisfies` admits a prerelease against a range
that mentions no prerelease, and `maxSatisfying` rejects a prerelease
even when the range explicitly names it (although `satisfies` accepts
it). -/
theorem C3_prerelease_gating_counterexample :
    Semver.satisfies "2.0.0-rc.1" ">=1.0.0" = true ∧
    Semver.satisfies "2.0.0-rc.1" "2.0.0-rc.1" = true ∧
    Semver.maxSatisfying ["2.0.0-rc.1"] "2.0.0-rc.1" = none :=
  ⟨by decide, by decide, by decide⟩

/-- C3, amended: `maxSatisfying` never returns a prerelease version —
the filter is unconditional, applying even when the range explicitly
mentions a prerelease — while `satisfies` applies no prerelease
exclusion at all (a prerelease can match a range that mentions none,
purely by comparator arithmetic). -/
theorem C3_prerelease_handling :
    (∀ (versions : List String) (rangeStr v : String),
      Semver.maxSatisfying versions rangeStr = some v →
      ∃ p, Semver.parse v = some p ∧ p.prerelease = []) ∧
    Semver.satisfies "2.0.0-rc.1" ">=1.0.0" = true := by
  constructor
  · intro versions rangeStr v h
    obtain ⟨_, p, hp, hpre, _⟩ := Semver.maxSatisfying_max versions rangeStr v h
    exact ⟨p, hp, hpre⟩
  · decide

/-- C3 witness: the amended theorem applied at a concrete input. -/
theorem C3_prerelease_handling_witness :
    ∃ p, Semver.parse "1.3.0" = some p ∧ p.prerelease = [] :=
  C3_prerelease_handling.1 ["1.0.0", "1.3.0"] "^1.0.0" "1.3.0" (by decide)

/-- C4: `maxSatisfying` only returns a prerelease-free, range-satisfying
element of its input that compares at least as high as every other
prerelease-free satisfying element, and the three concrete examples of
the specification hold. -/
theorem C4_maxSatisfying_spec :
    (∀ (versions : List String) (rangeStr v : String),
      Semver.maxSatisfying versions rangeStr = some v →
        v ∈ versions ∧
        ∃ p, Semver.parse v = some p ∧ p.prerelease = [] ∧
          Semver.satisfies v rangeStr = true ∧
          ∀ w q, w ∈ versions → Semver.parse w = some q →
            q.prerelease = [] → Semver.satisfies w rangeStr = true →
            Semver.compare p q ≥ 0) ∧
    Semver.maxSatisfying ["1.0.0", "1.2.3", "2.0.0-rc.1", "2.0.0"] "^1.0.0" =
      some "1.2.3" ∧
    Semver.satisfies "1.2.3" "~1.2.0" = true ∧
    Semver.satisfies "2.0.0-rc.1" "^2.0.0" = false := by
  refine ⟨?_, by decide, by decide, by decide⟩
  intro versions rangeStr v h
  exact Semver.maxSatisfying_max versions rangeStr v h

/-- C4 witness: the theorem applied to the specification's example. -/
theorem C4_maxSatisfying_spec_witness :
    "1.2.3" ∈ ["1.0.0", "1.2.3", "2.0.0-rc.1", "2.0.0"] ∧
    ∃ p, Semver.parse "1.2.3" = some p ∧ p.prerelease = [] ∧
      Semver.satisfies "1.2.3" "^1.0.0" = true ∧
      ∀ w q, w ∈ ["1.0.0", "1.2.3", "2.0.0-rc.1", "2.0.0"] →
        Semver.parse w = some q → q.prerelease = [] →
        Semver.satisfies w "^1.0.0" = true → Semver.compare p q ≥ 0 :=
  C4_maxSatisfying_spec.1 ["1.0.0", "1.2.3", "2.0.0-rc.1", "2.0.0"] "^1.0.0"
    "1.2.3" (by decide)

set_option maxRecDepth 1000000 in
/-- C5, counterexample: a single all-zero block stops extraction — the
valid header following it (which on its own yields a write of `a.txt`)
is never processed, contrary to the two-consecutive-zero-blocks
claim. -/
theorem C5_zero_block_counterexample :
    Tar.extractEntries (List.replicate 512 0 ++ Tar.sampleHeader) = [] ∧
    Tar.extractEntries Tar.sampleHeader = [("a.txt").data] :=
  ⟨by decide, by decide⟩

set_option maxRecDepth 1000000 in
/-- C5, amended: the extractor iterates 512-byte header blocks and
terminates on the FIRST all-zero block (or on input exhaustion); entries
after a single zero block are not extracted. -/
theorem C5_first_zero_block_terminates :
    (∀ rest : List Nat,
      Tar.extractEntries (List.replicate 512 0 ++ rest) = []) ∧
    Tar.extractEntries Tar.sampleHeader = [("a.txt").data] := by
  constructor
  · intro rest
    unfold Tar.extractEntries
    rw [Tar.extractLoop]
    have hlen : 0 + 512 ≤ (List.replicate 512 (0 : Nat) ++ rest).length := by
      simp
    rw [if_pos hlen]
    dsimp only
    have hh : ((List.replicate 512 (0 : Nat) ++ rest).drop 0).take 512 =
        List.replicate 512 0 := by
      rw [List.drop_zero]
      exact List.take_left' (by simp)
    rw [hh]
    have hz : Tar.isZeroBlock (List.replicate 512 (0 : Nat)) = true := by
      simp [Tar.isZeroBlock, List.all_eq_true, List.mem_replicate]
    rw [if_pos hz]
  · decide

/-- C6, counterexample: a second `resolve` over the same dependencies
does not start with an empty packument cache — handed the module-level
cache left by the first call (`clearCache` has no call site anywhere in
the repository), it performs zero registry fetches and reuses the
packuments fetched by the first call, producing the same resolution. -/
theorem C6_cache_reuse_counterexample :
    (Resolver.resolve Resolver.demoRegistry Resolver.demoDeps []).fetchLog =
      ["left-pad", "right-pad"] ∧
    (Resolver.resolve Resolver.demoRegistry Resolver.demoDeps
      (Resolver.resolve Resolver.demoRegistry Resolver.demoDeps []).cache).fetchLog =
      [] ∧
    (Resolver.resolve Resolver.demoRegistry Resolver.demoDeps
      (Resolver.resolve Resolver.demoRegistry Resolver.demoDeps []).cache).resolved =
      (Resolver.resolve Resolver.demoRegistry Resolver.demoDeps []).resolved :=
  ⟨by decide, by decide, by decide⟩

/-- C6, amended: the packument cache is a module-level map that persists
across `resolve` calls — `resolve` only ever adds to the cache it is
given (never clears it), and a later `resolve` that receives the cache
of an earlier one refetches nothing. -/
theorem C6_cache_persists :
    (∀ (reg : Resolver.Registry) (deps : List (String × String))
       (cache : List (String × Resolver.Packument)),
      ∃ pre, (Resolver.resolve reg deps cache).cache = pre ++ cache) ∧
    (Resolver.resolve Resolver.demoRegistry Resolver.demoDeps
      (Resolver.resolve Resolver.demoRegistry Resolver.demoDeps []).cache).fetchLog =
      [] := by
  constructor
  · intro reg deps cache
    unfold Resolver.resolve
    exact Resolver.resolveList_cache reg 51 deps _
  · decide

/-- C7: contrary to the claim (and to the comments in the source), the
module rewrite of `export const X = ...` and `export function X ...`
only strips the `export` keyword — no export-table write is emitted, so
after the transformed body runs the exports object does not contain
`X`. -/
theorem C7_export_decl_missing_export_write :
    DevServer.transformModules (("export const X = 1;").data) =
      ("const X = 1;").data ∧
    DevServer.containsSub ("module.exports").data
      (DevServer.transformModules ("export const X = 1;").data) = false ∧
    DevServer.transformModules (("export function X() \x7b\x7d").data) =
      ("function X() \x7b\x7d").data ∧
    DevServer.containsSub ("module.exports").data
      (DevServer.transformModules ("export function X() \x7b\x7d").data) = false :=
  ⟨by decide, by decide, by decide, by decide⟩

/-- C8, counterexample: a project containing `/index.ts` (and no other
`index.*`) does not select `/index.ts` by the index priority — with
`/App.js` present the entry is `/App.js`, and with `/index.ts` alone
the bundle still synthesizes the root-render call even though no
`App.*` file exists. -/
theorem C8_entry_priority_counterexample :
    DevServer.chooseEntry ["/index.ts", "/App.js"] = .appRender "/App.js" ∧
    DevServer.chooseEntry ["/index.ts"] = .appRender "/index.ts" ∧
    DevServer.EntryScript.appRender "/App.js" ≠
      DevServer.EntryScript.direct "/index.ts" :=
  ⟨by decide, by decide, by decide⟩

/-- C8, amended: the entry priority is `/index.js` > `/index.jsx` >
`/index.tsx` (no `/index.ts`), then `/App.js` > `/App.jsx` > `/App.tsx`
(no `/App.ts`), then the first file; whenever no index variant matches,
the chosen file — an `App.*` file or the first file — receives the
synthesized root-render call. -/
theorem C8_entry_selection :
    ∀ fl : List String,
      ("/index.js" ∈ fl →
        DevServer.chooseEntry fl = .direct "/index.js") ∧
      ("/index.js" ∉ fl → "/index.jsx" ∈ fl →
        DevServer.chooseEntry fl = .direct "/index.jsx") ∧
      ("/index.js" ∉ fl → "/index.jsx" ∉ fl →
        "/index.tsx" ∈ fl →
        DevServer.chooseEntry fl = .direct "/index.tsx") ∧
      ("/index.js" ∉ fl → "/index.jsx" ∉ fl →
        "/index.tsx" ∉ fl → "/App.js" ∈ fl →
        DevServer.chooseEntry fl = .appRender "/App.js") ∧
      ("/index.js" ∉ fl → "/index.jsx" ∉ fl →
        "/index.tsx" ∉ fl → "/App.js" ∉ fl →
        "/App.jsx" ∈ fl →
        DevServer.chooseEntry fl = .appRender "/App.jsx") ∧
      ("/index.js" ∉ fl → "/index.jsx" ∉ fl →
        "/index.tsx" ∉ fl → "/App.js" ∉ fl →
        "/App.jsx" ∉ fl → "/App.tsx" ∈ fl →
        DevServer.chooseEntry fl = .appRender "/App.tsx") ∧
      ("/index.js" ∉ fl → "/index.jsx" ∉ fl →
        "/index.tsx" ∉ fl → "/App.js" ∉ fl →
        "/App.jsx" ∉ fl → "/App.tsx" ∉ fl →
        DevServer.chooseEntry fl =
          (match fl.head? with
           | some f => .appRender f
           | none => .noEntry)) := by
  intro fl
  refine ⟨?_, ?_, ?_, ?_, ?_, ?_, ?_⟩ <;>
    · intros
      simp [DevServer.chooseEntry, *]

/-- C8 witness: the amended selection applied at concrete inputs. -/
theorem C8_entry_selection_witness :
    DevServer.chooseEntry ["/index.js"] = .direct "/index.js" ∧
    DevServer.chooseEntry ["/x.js", "/App.tsx"] = .appRender "/App.tsx" :=
  ⟨(C8_entry_selection ["/index.js"]).1 (by decide),
   (C8_entry_selection ["/x.js", "/App.tsx"]).2.2.2.2.2.1 (by decide)
     (by decide) (by decide) (by decide) (by decide) (by decide)⟩

set_option maxRecDepth 1000000 in
/-- C9, counterexample: `transformJSX` is not idempotent — on
`export function f() {}` the first pass yields `function f() {}`, and a
second pass appends `module.exports = f;` via the default-function
heuristic of the module rewrite. -/
theorem C9_jsx_not_idempotent_counterexample :
    DevServer.transformJSXStr "export function f() \x7b\x7d" =
      "function f() \x7b\x7d" ∧
    DevServer.transformJSXStr (DevServer.transformJSXStr
      "export function f() \x7b\x7d") =
      "function f() \x7b\x7d\nmodule.exports = f;" ∧
    ("function f() \x7b\x7d\nmodule.exports = f;" : String) ≠
      "function f() \x7b\x7d" :=
  ⟨by decide, by decide, by decide⟩

set_option maxRecDepth 1000000 in
/-- C9, amended: re-applying `transformJSX` to its own output can change
it — the module rewrite appends a `module.exports` assignment on the
second pass — while the JSX-syntax pass alone leaves the rewritten
output unchanged (it contains no JSX tags). -/
theorem C9_second_pass_appends :
    DevServer.transformJSX (DevServer.transformJSX
      ("export function f() \x7b\x7d").data) =
      DevServer.transformJSX ("export function f() \x7b\x7d").data ++
        '\n' :: ("module.exports = f;").data ∧
    DevServer.transformJSXSyntax (DevServer.transformJSX
      ("export function f() \x7b\x7d").data) =
      DevServer.transformJSX ("export function f() \x7b\x7d").data :=
  ⟨by decide, by decide⟩

/-- C10, counterexample: a malformed frame is not the one inbound case
with no response — the payload `null` is valid JSON (so this inbound
case is distinct from a malformed frame), yet the handler sends no
frame for it either: `const { id, type } = msg` throws on `null` before
any `send`, and the exception escapes the handler uncaught. -/
theorem C10_null_payload_counterexample :
    (MsgLoop.handleRaw .nullPayload).frames = [] ∧
    MsgLoop.Parsed.nullPayload ≠ MsgLoop.Parsed.malformed ∧
    (MsgLoop.handleRaw .nullPayload).threw = true :=
  ⟨rfl, by decide, rfl⟩

/-- C10, amended: a message whose payload fails JSON parsing is
silently dropped (no reply, no escaped exception), and every payload
that survives the `const { id, type } = msg` destructuring produces at
least one reply frame, with every recognized type's failure path
replying with an error frame — but the no-response inbound cases are
exactly two: the malformed frame (silent drop) and the valid-JSON
payload `null`, on which the destructuring throws out of the handler
before any frame is sent. -/
theorem C10_no_reply_cases :
    (∀ p : MsgLoop.Parsed, (MsgLoop.handleRaw p).frames = [] ↔
      (p = .malformed ∨ p = .nullPayload)) ∧
    (MsgLoop.handleRaw .malformed).threw = false ∧
    (MsgLoop.handleRaw .nullPayload).threw = true ∧
    MsgLoop.handleParsed (.kill false) = [.errorF] ∧
    MsgLoop.handleParsed (.writeFile .err) = [.errorF] ∧
    MsgLoop.handleParsed (.readFile .err) = [.errorF] ∧
    MsgLoop.handleParsed (.mkdir .err) = [.errorF] ∧
    MsgLoop.handleParsed (.readDir .err) = [.errorF] ∧
    MsgLoop.handleParsed (.exec .threw) = [.errorF] ∧
    MsgLoop.handleParsed .unknown = [.errorF] := by
  refine ⟨?_, rfl, rfl, rfl, rfl, rfl, rfl, rfl, rfl, rfl⟩
  intro p
  cases p with
  | malformed => simp [MsgLoop.handleRaw]
  | nullPayload => simp [MsgLoop.handleRaw]
  | msg m =>
    simp only [MsgLoop.handleRaw]
    constructor
    · intro h
      exfalso
      cases m with
      | ping => simp [MsgLoop.handleParsed] at h
      | exec o => cases o <;> simp [MsgLoop.handleParsed] at h
      | kill found => cases found <;> simp [MsgLoop.handleParsed] at h
      | writeFile r => cases r <;> simp [MsgLoop.handleParsed] at h
      | readFile r => cases r <;> simp [MsgLoop.handleParsed] at h
      | mkdir r => cases r <;> simp [MsgLoop.handleParsed] at h
      | readDir r => cases r <;> simp [MsgLoop.handleParsed] at h
      | getInfo => simp [MsgLoop.handleParsed] at h
      | unknown => simp [MsgLoop.handleParsed] at h
    · intro h
      rcases h with h | h <;> exact absurd h (by simp)

end ICode
